import Mathlib

/-!
Shallow embedding of the rope-simulation physics core (src/src/main.rs).

The Rust code computes over IEEE f64; this development embeds it over the
real numbers, the exact-arithmetic idealization the specification reasons
in.  Every definition below mirrors the corresponding Rust item line by
line; where a claim is about the definedness of a floating-point division
(normalizing a zero-length vector produces 0.0/0.0 = NaN in the code), a
second, Option-valued embedding tracks that partiality explicitly.
-/

namespace RopeSim

noncomputable section

/-- Constant ZERO_THRESHOLD from main.rs (0.00001). -/
def ZERO_THRESHOLD : ℝ := 0.00001

/-- Constant SPEED_CAP from main.rs. -/
def SPEED_CAP : ℝ := 100.0

/-- Constant FORCE_CAP from main.rs. -/
def FORCE_CAP : ℝ := 50.0

/-- The 2D vector type of main.rs (struct Vec2 with f64 fields). -/
structure Vec2 where
  x : ℝ
  y : ℝ

instance : Add Vec2 := ⟨fun a b => ⟨a.x + b.x, a.y + b.y⟩⟩

instance : Sub Vec2 := ⟨fun a b => ⟨a.x - b.x, a.y - b.y⟩⟩

instance : Neg Vec2 := ⟨fun a => ⟨-a.x, -a.y⟩⟩

instance : HMul Vec2 ℝ Vec2 := ⟨fun a c => ⟨a.x * c, a.y * c⟩⟩

instance : HDiv Vec2 ℝ Vec2 := ⟨fun a c => ⟨a.x / c, a.y / c⟩⟩

@[simp] theorem Vec2.add_def (a b : Vec2) : a + b = ⟨a.x + b.x, a.y + b.y⟩ := rfl

@[simp] theorem Vec2.sub_def (a b : Vec2) : a - b = ⟨a.x - b.x, a.y - b.y⟩ := rfl

@[simp] theorem Vec2.neg_def (a : Vec2) : -a = ⟨-a.x, -a.y⟩ := rfl

@[simp] theorem Vec2.mul_def (a : Vec2) (c : ℝ) : a * c = ⟨a.x * c, a.y * c⟩ := rfl

@[simp] theorem Vec2.div_def (a : Vec2) (c : ℝ) : a / c = ⟨a.x / c, a.y / c⟩ := rfl

/-- Vec2::ZERO. -/
def Vec2.ZERO : Vec2 := ⟨0, 0⟩

/-- Vec2::length: Euclidean norm sqrt(x^2 + y^2). -/
def Vec2.length (v : Vec2) : ℝ := Real.sqrt (v.x ^ 2 + v.y ^ 2)

/-- Vec2::normalized: self / self.length().  In the real-number embedding a
division by zero yields the junk value 0; the Option-valued variant
below tracks that partiality where a claim depends on it. -/
def Vec2.normalized (v : Vec2) : Vec2 := v / v.length

/-- Vec2::length_sub: shrink the magnitude by amnt toward zero. -/
def Vec2.length_sub (v : Vec2) (amnt : ℝ) : Vec2 :=
  if v.length < amnt ∨ v.length < ZERO_THRESHOLD then Vec2.ZERO
  else v - v.normalized * amnt

/-- Vec2::length_clamped: cap the magnitude at amnt. -/
def Vec2.length_clamped (v : Vec2) (amnt : ℝ) : Vec2 :=
  if v.length < amnt then v else v.normalized * amnt

/-- Vec2::dot. -/
def Vec2.dot (v other : Vec2) : ℝ := v.x * other.x + v.y * other.y

/-- Vec2::project_onto. -/
def Vec2.project_onto (v other : Vec2) : Vec2 :=
  other.normalized * (v.dot other / other.length)

/-- Vec2::rotated90, with the quadrant-dependent handedness flip of the
source: invert_x_for_ccw = (x < 0) ^ (y < 0), branch on invert ^ cw. -/
def Vec2.rotated90 (v : Vec2) (cw : Bool) : Vec2 :=
  if Bool.xor (Bool.xor (decide (v.x < 0)) (decide (v.y < 0))) cw then
    ⟨-v.y, v.x⟩
  else
    ⟨v.y, -v.x⟩

/-- Option-valued Vec2::normalized: none exactly when the source would
divide by a zero length (0.0/0.0, a NaN in f64). -/
def Vec2.normalizedChecked (v : Vec2) : Option Vec2 :=
  if v.length = 0 then none else some (v / v.length)

/-- Option-valued Vec2::length_clamped built on the checked
normalization: none exactly when the source normalizes a zero vector. -/
def Vec2.length_clampedChecked (v : Vec2) (amnt : ℝ) : Option Vec2 :=
  if v.length < amnt then some v
  else (v.normalizedChecked).map (fun w => w * amnt)

/- Basic facts about Vec2.length. -/

theorem Vec2.length_nonneg (v : Vec2) : 0 ≤ v.length := Real.sqrt_nonneg _

@[simp] theorem Vec2.length_ZERO : Vec2.ZERO.length = 0 := by
  simp [Vec2.length, Vec2.ZERO]

theorem Vec2.length_eq_zero_iff (v : Vec2) : v.length = 0 ↔ v = Vec2.ZERO := by
  unfold Vec2.length
  rw [Real.sqrt_eq_zero (by positivity)]
  constructor
  · intro h
    have hx : v.x = 0 := by nlinarith [sq_nonneg v.x, sq_nonneg v.y]
    have hy : v.y = 0 := by nlinarith [sq_nonneg v.x, sq_nonneg v.y]
    cases v
    simp_all [Vec2.ZERO]
  · intro h
    rw [h]
    show (0:ℝ) ^ 2 + (0:ℝ) ^ 2 = 0
    norm_num

theorem Vec2.length_mul (v : Vec2) (c : ℝ) : (v * c).length = v.length * |c| := by
  unfold Vec2.length
  simp only [Vec2.mul_def]
  rw [show (v.x * c) ^ 2 + (v.y * c) ^ 2 = (v.x ^ 2 + v.y ^ 2) * c ^ 2 by ring,
    Real.sqrt_mul (by positivity), Real.sqrt_sq_eq_abs]

theorem Vec2.length_div (v : Vec2) (c : ℝ) : (v / c).length = v.length / |c| := by
  unfold Vec2.length
  simp only [Vec2.div_def]
  rw [show (v.x / c) ^ 2 + (v.y / c) ^ 2 = (v.x ^ 2 + v.y ^ 2) / c ^ 2 by ring,
    Real.sqrt_div (by positivity), Real.sqrt_sq_eq_abs]

theorem Vec2.length_normalized_mul (v : Vec2) (c : ℝ) (h : v.length ≠ 0) :
    (v.normalized * c).length = |c| := by
  rw [Vec2.normalized, Vec2.length_mul, Vec2.length_div]
  rw [abs_of_nonneg (Vec2.length_nonneg v), div_self h, one_mul]

/-- One point mass of the rope (struct RopeSegment of main.rs): position,
velocity and the per-step force accumulator. -/
structure RopeSegment where
  pos : Vec2
  speed : Vec2
  force : Vec2

/-- RopeSegment::MASS. -/
def MASS : ℝ := 0.5

/-- RopeSegment::STIFFNESS. -/
def STIFFNESS : ℝ := 0.5

/-- RopeSegment::DAMPING. -/
def DAMPING : ℝ := 0.015

/-- RopeSegment::LENGTH, the spring rest length. -/
def LENGTH : ℝ := 20.0

/-- RopeSegment::STATIC_FRICTION. -/
def STATIC_FRICTION : ℝ := 0.0016

/-- RopeSegment::KINETIC_FRICTION. -/
def KINETIC_FRICTION : ℝ := 0.0008

/-- RopeSegment::pull: accumulate an external force into the force
buffer. -/
def RopeSegment.pull (s : RopeSegment) (force : Vec2) : RopeSegment :=
  { s with force := s.force + force }

/-- RopeSegment::apply_force_to_linked_segment: the spring interaction,
applied from the immutable self segment onto the linked segment, whose
updated value is returned. -/
def RopeSegment.apply_force_to_linked_segment (s linked : RopeSegment) :
    RopeSegment :=
  let pullVec := (s.pos - linked.pos).length_sub LENGTH
  if pullVec.length < ZERO_THRESHOLD then linked
  else
    let spring_speed := (s.speed - linked.speed).project_onto pullVec
    let spring_damping := spring_speed * DAMPING
    let pull_dampened := pullVec + spring_damping
    linked.pull (pull_dampened * STIFFNESS)

/-- The force after the static-friction branch of RopeSegment::tick: when
the entry velocity is below ZERO_THRESHOLD the accumulated force is shrunk
by STATIC_FRICTION, otherwise it is left alone. -/
def RopeSegment.frictionForce (s : RopeSegment) : Vec2 :=
  if s.speed.length < ZERO_THRESHOLD then s.force.length_sub STATIC_FRICTION
  else s.force

/-- The force RopeSegment::tick actually feeds into the velocity update:
the post-friction force clamped to FORCE_CAP. -/
def RopeSegment.clampedForce (s : RopeSegment) : Vec2 :=
  s.frictionForce.length_clamped FORCE_CAP

/-- RopeSegment::tick: one integration sub-step, following the source
statement by statement.  friction_applied in the source is exactly the
entry test speed.length() < ZERO_THRESHOLD. -/
def RopeSegment.tick (s : RopeSegment) : RopeSegment :=
  let speed1 := if s.speed.length < ZERO_THRESHOLD then Vec2.ZERO else s.speed
  let speed2 := speed1 + s.clampedForce / MASS
  let speed3 := if s.speed.length < ZERO_THRESHOLD then speed2
    else speed2.length_sub (KINETIC_FRICTION / MASS)
  let speed4 := speed3.length_clamped SPEED_CAP
  { pos := s.pos + speed4, speed := speed4, force := Vec2.ZERO }

/-- Default segment value used for out-of-range list indexing in the
embedding (the Rust code would panic instead; all claims stay within
range). -/
def segDefault : RopeSegment := ⟨Vec2.ZERO, Vec2.ZERO, Vec2.ZERO⟩

/-- The rope (struct Rope of main.rs): cursor target plus the ordered
segments. -/
structure Rope where
  cursor : Vec2
  segments : List RopeSegment

/-- Rope::new. -/
def Rope.new (n : ℕ) (pos : Vec2) : Rope :=
  { cursor := pos,
    segments := List.replicate n ⟨pos, Vec2.ZERO, Vec2.ZERO⟩ }

/-- Rope::pull: translate the cursor. -/
def Rope.pull (r : Rope) (x y : ℝ) : Rope :=
  { r with cursor := r.cursor + ⟨x, y⟩ }

/-- The ordered list of (self index, linked index) spring invocations the
loop of Rope::tick performs on a chain of n segments: iteration i first
applies segment i onto segment i-1 (when i is not 0), then segment i onto
segment i+1 (when i is not the last index). -/
def springCalls (n : ℕ) : List (ℕ × ℕ) :=
  (List.range n).flatMap fun i =>
    (if i ≠ 0 then [(i, i - 1)] else []) ++
      (if i ≠ n - 1 then [(i, i + 1)] else [])

/-- Execute one spring invocation (s, l): read the current segments and
replace segment l by the result of segment s applying force onto it. -/
def applyCall (segs : List RopeSegment) (c : ℕ × ℕ) : List RopeSegment :=
  segs.set c.2
    ((segs.getD c.1 segDefault).apply_force_to_linked_segment
      (segs.getD c.2 segDefault))

/-- The cursor phase of Rope::tick: when the cursor is farther than
ZERO_THRESHOLD from segment 0, add diff * 0.0005 to the force of
segment 0. -/
def Rope.cursorPhase (r : Rope) : Rope :=
  let seg0 := r.segments.getD 0 segDefault
  let diff := r.cursor - seg0.pos
  if diff.length > ZERO_THRESHOLD then
    { r with segments :=
        r.segments.set 0 { seg0 with force := seg0.force + diff * (0.0005 : ℝ) } }
  else r

/-- The spring phase of Rope::tick: perform every invocation of
springCalls in order on the mutable segment list. -/
def Rope.springPhase (r : Rope) : Rope :=
  { r with segments := (springCalls r.segments.length).foldl applyCall r.segments }

/-- Rope::tick: cursor pull, pairwise spring exchange, then independent
integration of every segment. -/
def Rope.tick (r : Rope) : Rope :=
  let r1 := r.cursorPhase
  let r2 := r1.springPhase
  { r2 with segments := r2.segments.map RopeSegment.tick }

/- Shared helper lemmas. -/

theorem Vec2.add_ZERO (v : Vec2) : v + Vec2.ZERO = v := by
  cases v; simp [Vec2.ZERO]

theorem Vec2.ZERO_add (v : Vec2) : Vec2.ZERO + v = v := by
  cases v; simp [Vec2.ZERO]

theorem Vec2.ZERO_div (c : ℝ) : Vec2.ZERO / c = Vec2.ZERO := by
  simp [Vec2.ZERO]

theorem Vec2.neg_neg' (v : Vec2) : - -v = v := by
  cases v; simp

/-- length_sub returns the zero vector whenever the amount is at least the
length, the boundary case included. -/
theorem Vec2.length_sub_of_le (v : Vec2) (amnt : ℝ) (h : v.length ≤ amnt) :
    v.length_sub amnt = Vec2.ZERO := by
  unfold Vec2.length_sub
  by_cases hc : v.length < amnt ∨ v.length < ZERO_THRESHOLD
  · rw [if_pos hc]
  · rw [if_neg hc]
    push_neg at hc
    obtain ⟨h1, h2⟩ := hc
    have hL : v.length = amnt := le_antisymm h h1
    have hpos : (0:ℝ) < ZERO_THRESHOLD := by norm_num [ZERO_THRESHOLD]
    have hne : v.length ≠ 0 := ne_of_gt (lt_of_lt_of_le hpos h2)
    unfold Vec2.normalized
    simp only [Vec2.div_def, Vec2.mul_def, Vec2.sub_def]
    rw [← hL, div_mul_cancel₀ _ hne, div_mul_cancel₀ _ hne]
    simp [Vec2.ZERO]

/-- length_clamped leaves the vector alone below the cap. -/
theorem Vec2.length_clamped_of_lt (v : Vec2) (amnt : ℝ) (h : v.length < amnt) :
    v.length_clamped amnt = v := if_pos h

/-- For a positive cap, the clamped vector has length at most the cap. -/
theorem Vec2.length_clamped_length_le (v : Vec2) (amnt : ℝ) (h : 0 < amnt) :
    (v.length_clamped amnt).length ≤ amnt := by
  unfold Vec2.length_clamped
  by_cases hlt : v.length < amnt
  · rw [if_pos hlt]; exact le_of_lt hlt
  · rw [if_neg hlt]
    push_neg at hlt
    have hne : v.length ≠ 0 := ne_of_gt (lt_of_lt_of_le h hlt)
    rw [Vec2.length_normalized_mul v amnt hne, abs_of_pos h]

/-- The force fed into the velocity update of tick never exceeds
FORCE_CAP. -/
theorem RopeSegment.clampedForce_length_le (s : RopeSegment) :
    (s.clampedForce).length ≤ FORCE_CAP :=
  Vec2.length_clamped_length_le _ _ (by norm_num [FORCE_CAP])

/-- The velocity returned by tick never exceeds SPEED_CAP. -/
theorem RopeSegment.tick_speed_length_le (s : RopeSegment) :
    ((s.tick).speed).length ≤ SPEED_CAP := by
  simp only [RopeSegment.tick]
  exact Vec2.length_clamped_length_le _ _ (by norm_num [SPEED_CAP])

/-- Claim C1: a segment with zero accumulated force and velocity below
ZERO_THRESHOLD keeps its position through tick and ends with velocity
exactly zero. -/
theorem tick_at_rest (s : RopeSegment) (hf : s.force = Vec2.ZERO)
    (hv : s.speed.length < ZERO_THRESHOLD) :
    (s.tick).pos = s.pos ∧ (s.tick).speed = Vec2.ZERO := by
  have hforce : s.clampedForce = Vec2.ZERO := by
    unfold RopeSegment.clampedForce RopeSegment.frictionForce
    rw [if_pos hv, hf,
      Vec2.length_sub_of_le _ _ (by norm_num [Vec2.length_ZERO, STATIC_FRICTION]),
      Vec2.length_clamped_of_lt _ _ (by norm_num [Vec2.length_ZERO, FORCE_CAP])]
  simp only [RopeSegment.tick, if_pos hv, hforce, Vec2.ZERO_div, Vec2.ZERO_add,
    Vec2.length_clamped_of_lt _ SPEED_CAP
      (by norm_num [Vec2.length_ZERO, SPEED_CAP] : Vec2.ZERO.length < SPEED_CAP),
    Vec2.add_ZERO]
  exact ⟨trivial, trivial⟩

/-- Concrete check of tick_at_rest at a segment resting at (1, 2). -/
theorem tick_at_rest_check :
    (RopeSegment.tick ⟨⟨1, 2⟩, Vec2.ZERO, Vec2.ZERO⟩).pos = ⟨1, 2⟩ ∧
    (RopeSegment.tick ⟨⟨1, 2⟩, Vec2.ZERO, Vec2.ZERO⟩).speed = Vec2.ZERO :=
  tick_at_rest ⟨⟨1, 2⟩, Vec2.ZERO, Vec2.ZERO⟩ rfl
    (by norm_num [Vec2.length_ZERO, ZERO_THRESHOLD])

/-- Claim C2: length_sub with an amount at least the length gives exactly
the zero vector, the boundary amount equal to the length included. -/
theorem length_sub_ge_length_eq_zero (v : Vec2) (amnt : ℝ)
    (h : v.length ≤ amnt) : v.length_sub amnt = Vec2.ZERO :=
  Vec2.length_sub_of_le v amnt h

/-- Concrete check of length_sub_ge_length_eq_zero at the boundary:
the vector (3, 4) has length exactly 5. -/
theorem length_sub_ge_length_eq_zero_check :
    Vec2.length_sub ⟨3, 4⟩ 5 = Vec2.ZERO :=
  length_sub_ge_length_eq_zero ⟨3, 4⟩ 5 (by
    unfold Vec2.length
    rw [show ((3:ℝ) ^ 2 + (4:ℝ) ^ 2) = 5 ^ 2 by norm_num,
      Real.sqrt_sq (by norm_num)])

/-- Claim C6: tick always resets the force accumulator to exactly the
zero vector. -/
theorem tick_force_eq_zero (s : RopeSegment) : (s.tick).force = Vec2.ZERO := rfl

/-- Claim C7: two segments exactly REST_LENGTH apart exchange no spring
force; the linked segment is returned unchanged. -/
theorem apply_force_at_rest_length (a b : RopeSegment)
    (h : (a.pos - b.pos).length = LENGTH) :
    a.apply_force_to_linked_segment b = b := by
  have hpull : (a.pos - b.pos).length_sub LENGTH = Vec2.ZERO :=
    Vec2.length_sub_of_le _ _ (le_of_eq h)
  unfold RopeSegment.apply_force_to_linked_segment
  rw [hpull, if_pos (by norm_num [Vec2.length_ZERO, ZERO_THRESHOLD])]

/-- Concrete check of apply_force_at_rest_length: segments at (20, 0) and
(0, 0) are exactly 20 apart. -/
theorem apply_force_at_rest_length_check :
    RopeSegment.apply_force_to_linked_segment
      ⟨⟨20, 0⟩, Vec2.ZERO, Vec2.ZERO⟩ ⟨⟨0, 0⟩, Vec2.ZERO, Vec2.ZERO⟩ =
      ⟨⟨0, 0⟩, Vec2.ZERO, Vec2.ZERO⟩ :=
  apply_force_at_rest_length _ _ (by
    unfold Vec2.length LENGTH
    simp only [Vec2.sub_def]
    rw [show (((20:ℝ) - 0) ^ 2 + ((0:ℝ) - 0) ^ 2) = 20 ^ 2 by norm_num,
      Real.sqrt_sq (by norm_num)]
    norm_num)

/-- Claim C10: the spring interaction alters only the force field of the
linked segment, and pull alters only the force field of its receiver;
in the source the self side is taken by shared reference and cannot
change. -/
theorem apply_force_frame (a b : RopeSegment) (f : Vec2) :
    ((a.apply_force_to_linked_segment b).pos = b.pos ∧
      (a.apply_force_to_linked_segment b).speed = b.speed) ∧
    ((b.pull f).pos = b.pos ∧ (b.pull f).speed = b.speed) := by
  refine ⟨?_, ⟨rfl, rfl⟩⟩
  unfold RopeSegment.apply_force_to_linked_segment
  by_cases hc :
      (((a.pos - b.pos).length_sub LENGTH).length < ZERO_THRESHOLD)
  · rw [if_pos hc]; exact ⟨rfl, rfl⟩
  · rw [if_neg hc]; exact ⟨rfl, rfl⟩

/-- Claim C5: the force used by tick is capped at FORCE_CAP, the velocity
after tick is capped at SPEED_CAP, for a lone segment and for every
segment of a chain after Rope::tick. -/
theorem force_speed_caps :
    (∀ s : RopeSegment,
      (s.clampedForce).length ≤ FORCE_CAP ∧
      ((s.tick).speed).length ≤ SPEED_CAP) ∧
    (∀ r : Rope,
      List.Forall (fun seg => (seg.speed).length ≤ SPEED_CAP)
        (r.tick).segments) := by
  refine ⟨fun s => ⟨s.clampedForce_length_le, s.tick_speed_length_le⟩,
    fun r => ?_⟩
  rw [List.forall_iff_forall_mem]
  intro x hx
  simp only [Rope.tick] at hx
  rw [List.mem_map] at hx
  obtain ⟨y, _, rfl⟩ := hx
  exact y.tick_speed_length_le

/-- Claim C3, counterexample: at the zero vector with amount 0 the code
takes the else branch of length_clamped and normalizes a zero-length
vector, dividing 0.0 by 0.0; the checked embedding reports the operation
as undefined rather than producing a value. -/
theorem length_clamped_zero_zero_undefined :
    Vec2.length_clampedChecked ⟨0, 0⟩ 0 = none := by
  have h : (⟨0, 0⟩ : Vec2).length = 0 := Vec2.length_ZERO
  unfold Vec2.length_clampedChecked Vec2.normalizedChecked
  rw [h, if_neg (lt_irrefl 0), if_pos rfl]
  rfl

/-- Claim C3 as amended: for amount at least 0, whenever the vector is
nonzero or the amount is positive, length_clamped is well defined (never
normalizes a zero-length vector) and its result has length at most the
amount. -/
theorem length_clamped_defined_bound (v : Vec2) (amnt : ℝ)
    (h0 : 0 ≤ amnt) (hnz : v ≠ Vec2.ZERO ∨ 0 < amnt) :
    ∃ w, v.length_clampedChecked amnt = some w ∧ w.length ≤ amnt := by
  unfold Vec2.length_clampedChecked
  by_cases hlt : v.length < amnt
  · exact ⟨v, by rw [if_pos hlt], le_of_lt hlt⟩
  · rw [if_neg hlt]
    push_neg at hlt
    have hne : v.length ≠ 0 := by
      rcases hnz with h | h
      · exact fun hz => h ((Vec2.length_eq_zero_iff v).mp hz)
      · exact ne_of_gt (lt_of_lt_of_le h hlt)
    unfold Vec2.normalizedChecked
    rw [if_neg hne]
    refine ⟨v / v.length * amnt, rfl, ?_⟩
    have : v / v.length = v.normalized := rfl
    rw [this, Vec2.length_normalized_mul _ _ hne, abs_of_nonneg h0]

/-- Concrete check of length_clamped_defined_bound at (3, 4) with
amount 2. -/
theorem length_clamped_defined_bound_check :
    ∃ w, Vec2.length_clampedChecked ⟨3, 4⟩ 2 = some w ∧ w.length ≤ 2 :=
  length_clamped_defined_bound ⟨3, 4⟩ 2 (by norm_num)
    (Or.inr (by norm_num))

/-- Each application of rotated90 is either the counter-clockwise or the
clockwise quarter turn, depending on the quadrant correction. -/
theorem Vec2.rotated90_cases (v : Vec2) (c : Bool) :
    v.rotated90 c = ⟨-v.y, v.x⟩ ∨ v.rotated90 c = ⟨v.y, -v.x⟩ := by
  unfold Vec2.rotated90
  by_cases h : Bool.xor (Bool.xor (decide (v.x < 0)) (decide (v.y < 0))) c = true
  · rw [if_pos h]; exact Or.inl rfl
  · rw [if_neg h]; exact Or.inr rfl

/-- Two successive applications of rotated90, with any flags, give back
the vector or its negation. -/
theorem Vec2.rotated90_twice (v : Vec2) (c1 c2 : Bool) :
    (v.rotated90 c1).rotated90 c2 = v ∨
    (v.rotated90 c1).rotated90 c2 = -v := by
  obtain ⟨x, y⟩ := v
  rcases Vec2.rotated90_cases ⟨x, y⟩ c1 with h1 | h1 <;>
    rcases Vec2.rotated90_cases ((⟨x, y⟩ : Vec2).rotated90 c1) c2 with h2 | h2 <;>
    rw [h2, h1] <;> simp

/-- Claim C4, counterexample: rotating (1, 1) twice clockwise returns
(1, 1) itself, not its negation, and rotating (1, 0) four times with the
consistent clockwise flag gives (-1, 0), not (1, 0). -/
theorem rotated90_period_counterexample :
    ((Vec2.mk 1 1).rotated90 true).rotated90 true ≠ -Vec2.mk 1 1 ∧
    ((((Vec2.mk 1 0).rotated90 true).rotated90 true).rotated90
        true).rotated90 true ≠ Vec2.mk 1 0 := by
  have d1 : decide ((1:ℝ) < 0) = false := decide_eq_false (by norm_num)
  have d0 : decide ((0:ℝ) < 0) = false := decide_eq_false (by norm_num)
  have dm1 : decide ((-1:ℝ) < 0) = true := decide_eq_true (by norm_num)
  have s1 : (Vec2.mk 1 1).rotated90 true = ⟨-1, 1⟩ := by
    unfold Vec2.rotated90
    rw [if_pos]
    show Bool.xor (Bool.xor (decide ((1:ℝ) < 0)) (decide ((1:ℝ) < 0))) true = true
    rw [d1]
    rfl
  have s2 : (Vec2.mk (-1) 1).rotated90 true = ⟨1, 1⟩ := by
    unfold Vec2.rotated90
    rw [if_neg]
    · show (⟨(1:ℝ), -(-1:ℝ)⟩ : Vec2) = ⟨1, 1⟩
      norm_num
    · show ¬ Bool.xor (Bool.xor (decide ((-1:ℝ) < 0)) (decide ((1:ℝ) < 0))) true = true
      rw [dm1, d1]
      simp
  have t1 : (Vec2.mk 1 0).rotated90 true = ⟨0, 1⟩ := by
    unfold Vec2.rotated90
    rw [if_pos]
    · show (⟨-(0:ℝ), (1:ℝ)⟩ : Vec2) = ⟨0, 1⟩
      norm_num
    · show Bool.xor (Bool.xor (decide ((1:ℝ) < 0)) (decide ((0:ℝ) < 0))) true = true
      rw [d1, d0]
      rfl
  have t2 : (Vec2.mk 0 1).rotated90 true = ⟨-1, 0⟩ := by
    unfold Vec2.rotated90
    rw [if_pos]
    show Bool.xor (Bool.xor (decide ((0:ℝ) < 0)) (decide ((1:ℝ) < 0))) true = true
    rw [d0, d1]
    rfl
  have t3 : (Vec2.mk (-1) 0).rotated90 true = ⟨0, 1⟩ := by
    unfold Vec2.rotated90
    rw [if_neg]
    · show (⟨(0:ℝ), -(-1:ℝ)⟩ : Vec2) = ⟨0, 1⟩
      norm_num
    · show ¬ Bool.xor (Bool.xor (decide ((-1:ℝ) < 0)) (decide ((0:ℝ) < 0))) true = true
      rw [dm1, d0]
      simp
  constructor
  · rw [s1, s2]
    simp only [Vec2.neg_def, ne_eq, Vec2.mk.injEq]
    norm_num
  · rw [t1, t2, t3, t2]
    simp only [ne_eq, Vec2.mk.injEq]
    norm_num

/-- Claim C4 as amended: two successive applications of rotated90, with
any handedness flags, give back the vector or its negation, and so do
four successive applications; which of the two occurs depends on the
quadrants the intermediate vectors fall in. -/
theorem rotated90_twice_four_pm (v : Vec2) (c1 c2 c3 c4 : Bool) :
    ((v.rotated90 c1).rotated90 c2 = v ∨
      (v.rotated90 c1).rotated90 c2 = -v) ∧
    ((((v.rotated90 c1).rotated90 c2).rotated90 c3).rotated90 c4 = v ∨
      (((v.rotated90 c1).rotated90 c2).rotated90 c3).rotated90 c4 = -v) := by
  have h2 := Vec2.rotated90_twice v c1 c2
  have h4 := Vec2.rotated90_twice ((v.rotated90 c1).rotated90 c2) c3 c4
  refine ⟨h2, ?_⟩
  rcases h2 with h | h <;> rcases h4 with h' | h'
  · exact Or.inl (Eq.trans h' h)
  · exact Or.inr (Eq.trans h' (by rw [h]))
  · exact Or.inr (Eq.trans h' h)
  · exact Or.inl (Eq.trans h' (by rw [h, Vec2.neg_neg']))

/- Counting machinery for the spring invocation list. -/

theorem count_flatMap {α β : Type} [BEq β] (l : List α) (f : α → List β)
    (b : β) :
    (l.flatMap f).count b = (l.map fun a => (f a).count b).sum := by
  rw [show l.flatMap f = (l.map f).flatten from rfl, List.count_flatten,
    List.map_map]
  rfl

theorem sum_map_indicator (n i : ℕ) :
    ((List.range n).map fun j => if j = i then 1 else 0).sum
      = if i < n then 1 else 0 := by
  induction n with
  | zero => simp
  | succ n ih =>
    rw [List.range_succ, List.map_append, List.sum_append, ih]
    simp only [List.map_cons, List.map_nil, List.sum_cons, List.sum_nil]
    by_cases h1 : i < n
    · rw [if_pos h1, if_pos (show i < n + 1 by omega),
        if_neg (show ¬ n = i by omega)]
      omega
    · by_cases h2 : n = i
      · rw [if_neg h1, if_pos h2, if_pos (show i < n + 1 by omega)]
        omega
      · rw [if_neg h1, if_neg h2, if_neg (show ¬ i < n + 1 by omega)]
        omega

/-- Claim C8: in the spring loop of Rope::tick on a chain of n segments,
every adjacent pair (i-1, i) is visited exactly twice: once with segment
i as self and segment i-1 as linked, once the other way round. -/
theorem springCalls_pair_counts (n i : ℕ) (hn : 2 ≤ n) (h1 : 1 ≤ i)
    (h2 : i < n) :
    (springCalls n).count (i, i - 1) = 1 ∧
    (springCalls n).count (i - 1, i) = 1 := by
  constructor
  · unfold springCalls
    rw [count_flatMap]
    have hfun : ∀ j : ℕ,
        List.count (i, i - 1)
            ((if j ≠ 0 then [(j, j - 1)] else []) ++
              (if j ≠ n - 1 then [(j, j + 1)] else []))
          = if j = i then 1 else 0 := by
      intro j
      rw [List.count_append]
      by_cases hj : j = i
      · subst hj
        rw [if_pos (show j ≠ 0 by omega)]
        have c1 : List.count (j, j - 1) [(j, j - 1)] = 1 := by
          simp [List.count_singleton]
        have c2 : List.count (j, j - 1)
            (if j ≠ n - 1 then [(j, j + 1)] else []) = 0 := by
          by_cases hl : j ≠ n - 1
          · rw [if_pos hl, List.count_singleton, if_neg]
            simp only [beq_iff_eq, Prod.mk.injEq, not_and]
            omega
          · rw [if_neg hl]; rfl
        rw [c1, c2, if_pos rfl]
      · have c1 : List.count (i, i - 1)
            (if j ≠ 0 then [(j, j - 1)] else []) = 0 := by
          by_cases hz : j ≠ 0
          · rw [if_pos hz, List.count_singleton, if_neg]
            simp only [beq_iff_eq, Prod.mk.injEq, not_and]
            omega
          · rw [if_neg hz]; rfl
        have c2 : List.count (i, i - 1)
            (if j ≠ n - 1 then [(j, j + 1)] else []) = 0 := by
          by_cases hl : j ≠ n - 1
          · rw [if_pos hl, List.count_singleton, if_neg]
            simp only [beq_iff_eq, Prod.mk.injEq, not_and]
            omega
          · rw [if_neg hl]; rfl
        rw [c1, c2, if_neg hj]
    calc ((List.range n).map fun j =>
            List.count (i, i - 1)
              ((if j ≠ 0 then [(j, j - 1)] else []) ++
                (if j ≠ n - 1 then [(j, j + 1)] else []))).sum
        = ((List.range n).map fun j => if j = i then 1 else 0).sum := by
          rw [List.map_congr_left fun j _ => hfun j]
      _ = 1 := by rw [sum_map_indicator, if_pos h2]
  · unfold springCalls
    rw [count_flatMap]
    have hfun : ∀ j : ℕ,
        List.count (i - 1, i)
            ((if j ≠ 0 then [(j, j - 1)] else []) ++
              (if j ≠ n - 1 then [(j, j + 1)] else []))
          = if j = i - 1 then 1 else 0 := by
      intro j
      rw [List.count_append]
      by_cases hj : j = i - 1
      · have c1 : List.count (i - 1, i)
            (if j ≠ 0 then [(j, j - 1)] else []) = 0 := by
          by_cases hz : j ≠ 0
          · rw [if_pos hz, List.count_singleton, if_neg]
            simp only [beq_iff_eq, Prod.mk.injEq, not_and]
            omega
          · rw [if_neg hz]; rfl
        have c2 : List.count (i - 1, i)
            (if j ≠ n - 1 then [(j, j + 1)] else []) = 1 := by
          rw [if_pos (show j ≠ n - 1 by omega), List.count_singleton, if_pos]
          simp only [beq_iff_eq, Prod.mk.injEq]
          omega
        rw [c1, c2, if_pos hj]
      · have c1 : List.count (i - 1, i)
            (if j ≠ 0 then [(j, j - 1)] else []) = 0 := by
          by_cases hz : j ≠ 0
          · rw [if_pos hz, List.count_singleton, if_neg]
            simp only [beq_iff_eq, Prod.mk.injEq, not_and]
            omega
          · rw [if_neg hz]; rfl
        have c2 : List.count (i - 1, i)
            (if j ≠ n - 1 then [(j, j + 1)] else []) = 0 := by
          by_cases hl : j ≠ n - 1
          · rw [if_pos hl, List.count_singleton, if_neg]
            simp only [beq_iff_eq, Prod.mk.injEq, not_and]
            omega
          · rw [if_neg hl]; rfl
        rw [c1, c2, if_neg hj]
    calc ((List.range n).map fun j =>
            List.count (i - 1, i)
              ((if j ≠ 0 then [(j, j - 1)] else []) ++
                (if j ≠ n - 1 then [(j, j + 1)] else []))).sum
        = ((List.range n).map fun j => if j = i - 1 then 1 else 0).sum := by
          rw [List.map_congr_left fun j _ => hfun j]
      _ = 1 := by rw [sum_map_indicator, if_pos (by omega)]

/-- Concrete check of springCalls_pair_counts on a two-segment chain. -/
theorem springCalls_pair_counts_check :
    (springCalls 2).count (1, 0) = 1 ∧ (springCalls 2).count (0, 1) = 1 :=
  springCalls_pair_counts 2 1 (by decide) (by decide) (by decide)

/- Index lemmas for the segment list. -/

theorem getD_set_self {α : Type} (l : List α) (i : ℕ) (a d : α)
    (h : i < l.length) : (l.set i a).getD i d = a := by
  rw [List.getD_eq_getElem?_getD, List.getElem?_set_self h]
  rfl

theorem getD_set_ne {α : Type} (l : List α) (i j : ℕ) (a d : α)
    (h : i ≠ j) : (l.set i a).getD j d = l.getD j d := by
  rw [List.getD_eq_getElem?_getD, List.getElem?_set_ne h,
    List.getD_eq_getElem?_getD]

/-- Claim C9: when the cursor is farther than ZERO_THRESHOLD from segment
0, the cursor phase of Rope::tick adds exactly diff * 0.0005 to the force
accumulator of segment 0 and leaves every other segment untouched;
otherwise it changes nothing.  The later phases of Rope::tick never
read the cursor, so no other segment receives cursor-derived force. -/
theorem cursor_pull_head (r : Rope) (hne : r.segments ≠ []) :
    ((r.cursor - (r.segments.getD 0 segDefault).pos).length > ZERO_THRESHOLD →
      (r.cursorPhase).segments.getD 0 segDefault =
        { r.segments.getD 0 segDefault with
            force := (r.segments.getD 0 segDefault).force +
              (r.cursor - (r.segments.getD 0 segDefault).pos) * (0.0005 : ℝ) } ∧
      ∀ i : ℕ, i ≠ 0 →
        (r.cursorPhase).segments.getD i segDefault =
          r.segments.getD i segDefault) ∧
    (¬ (r.cursor - (r.segments.getD 0 segDefault).pos).length > ZERO_THRESHOLD →
      r.cursorPhase = r) := by
  have hlen : 0 < r.segments.length := List.length_pos.mpr hne
  constructor
  · intro h
    unfold Rope.cursorPhase
    rw [if_pos h]
    constructor
    · exact getD_set_self _ 0 _ _ hlen
    · intro i hi
      exact getD_set_ne _ 0 i _ _ fun e => hi e.symm
  · intro h
    unfold Rope.cursorPhase
    rw [if_neg h]

/-- The concrete rope used to check cursor_pull_head: cursor at (1, 0),
one segment at the origin. -/
def wRope : Rope := ⟨⟨1, 0⟩, [segDefault]⟩

/-- Concrete check of cursor_pull_head: on wRope the cursor phase sets
the head force to diff * 0.0005. -/
theorem cursor_pull_head_check :
    (wRope.cursorPhase).segments.getD 0 segDefault =
      { wRope.segments.getD 0 segDefault with
          force := (wRope.segments.getD 0 segDefault).force +
            (wRope.cursor - (wRope.segments.getD 0 segDefault).pos) *
              (0.0005 : ℝ) } :=
  ((cursor_pull_head wRope (by simp [wRope])).1 (by
    have : (wRope.cursor - (wRope.segments.getD 0 segDefault).pos).length
        = 1 := by
      show (Vec2.mk (1 - 0) (0 - 0)).length = 1
      unfold Vec2.length
      rw [show (((1:ℝ) - 0) ^ 2 + ((0:ℝ) - 0) ^ 2) = 1 by norm_num]
      exact Real.sqrt_one
    rw [this]
    norm_num [ZERO_THRESHOLD])).1

end

end RopeSim
